import Mathlib

/-!
Verification of the trust-graph builder, gossip feed manager and legacy
message verifier of the ssb repository, via a shallow embedding of the
Go source into Lean.

Bytes are modelled as `Nat`; the ASCII bytes of interest are
48 = the character 0, 49 = the character 1, 50 = the character 2.
The badger key/value store is modelled as an association list of
(key, value) byte lists; key iteration order is irrelevant for the
set-valued properties proved here.
-/

/-- A feed reference: an algorithm tag and the raw public-key bytes
(`refs.FeedRef` in the source). -/
structure FeedRef where
  algo : Nat
  key : List Nat
  deriving DecidableEq

/-- Well-formed feed reference: a recognized algorithm and a 32-byte key,
so that its stored form is exactly 34 bytes. -/
def wfRef (r : FeedRef) : Prop := r.algo < 3 ∧ r.key.length = 32

instance (r : FeedRef) : Decidable (wfRef r) := by
  unfold wfRef
  exact inferInstance

/-- Model of `storedrefs.Feed`: the TFK (type-format-key) binary form of a feed ref,
type byte 0, then the format byte, then the key bytes; 34 bytes for a
well-formed ref. -/
def storedFeed (r : FeedRef) : List Nat := 0 :: r.algo :: r.key

/-- Model of `tfk.Feed.UnmarshalBinary`: decode a 34-byte stored form back into a
feed ref; fails on a wrong type byte, an unknown format or a wrong length. -/
def tfkUnmarshalFeed (b : List Nat) : Option FeedRef :=
  match b with
  | t :: f :: rest =>
    if t = 0 ∧ f < 3 ∧ rest.length = 32 then some ⟨f, rest⟩ else none
  | _ => none

/-- The contact key/value store (the badger db of the builder). -/
abbrev Store := List (List Nat × List Nat)

/-- Setting a key in the store (`librarian` index `Set`): the new binding
replaces any previous binding of the same key. -/
def kvSet (s : Store) (k v : List Nat) : Store :=
  (k, v) :: s.filter (fun p => !(p.1 == k))

/-- An edge of the built graph (`contactEdge` in the source); the weight is
1 for a follow and +inf for a block, captured by the `isBlock` flag. -/
structure ContactEdge where
  src : FeedRef
  dst : FeedRef
  isBlock : Bool
  deriving DecidableEq

/-- Outcome of reading one stored value inside `Build`: the weight starts at
-inf (no edge); byte 0 leaves it, byte 1 makes a follow, byte 2 a
block, anything else is the "barbage value" error. An empty value also
leaves the weight at -inf. -/
inductive EdgeWeight where
  | noEdge
  | follow
  | block
  deriving DecidableEq

/-- The value switch of `builder.Build` (lines 218-232 of the source). -/
def valueWeight (v : List Nat) : Option EdgeWeight :=
  match v with
  | [] => some .noEdge
  | b :: _ =>
    if b = 48 then some .noEdge
    else if b = 49 then some .follow
    else if b = 50 then some .block
    else none

/-- The key scan of `builder.Build`: walk the store entries, skip keys that
are not 68 bytes, skip self keys (equal halves), decode both halves (a
decode failure aborts the scan with an error, keeping the edges collected
so far, exactly as the erroring badger `View` closure does), and add an edge
for a follow or block value. Node bookkeeping (`dg.lookup`) is keyed by the
raw 34-byte halves and is observationally irrelevant to the edge set, so it
is not carried. Edges are accumulated in scan order. -/
def buildScan : List (List Nat × List Nat) → List ContactEdge →
    List ContactEdge × Option String
  | [], acc => (acc, none)
  | (k, v) :: rest, acc =>
    if k.length ≠ 68 then buildScan rest acc
    else if k.take 34 = k.drop 34 then buildScan rest acc
    else
      match tfkUnmarshalFeed (k.take 34) with
      | none => (acc, some "builder: couldnt idx key value (from)")
      | some fr =>
        match tfkUnmarshalFeed (k.drop 34) with
        | none => (acc, some "builder: couldnt idx key value (to)")
        | some toRef =>
          match valueWeight v with
          | none => (acc, some "barbage value in graph strore")
          | some .noEdge => buildScan rest acc
          | some .follow => buildScan rest (acc ++ [⟨fr, toRef, false⟩])
          | some .block => buildScan rest (acc ++ [⟨fr, toRef, true⟩])

/-- The builder's mutable state: the key/value store and the memoized graph
(`builder.kv` and `builder.cachedGraph`). -/
structure BuilderState where
  store : Store
  cachedGraph : Option (List ContactEdge)

/-- Model of `builder.Build`: return the cached graph when present; otherwise scan the
store, install the scanned graph as the cache (also when the scan errored),
and return it together with the scan error. -/
def Build (st : BuilderState) : (List ContactEdge × Option String) × BuilderState :=
  match st.cachedGraph with
  | some g => ((g, none), st)
  | none =>
    let r := buildScan st.store []
    ((r.1, r.2), { st with cachedGraph := some r.1 })

/-- Model of `builder.DeleteAuthor`: drop every store key that begins with the stored
form of `who`, and invalidate the cache. -/
def DeleteAuthor (st : BuilderState) (who : FeedRef) : BuilderState :=
  { store := st.store.filter (fun p => !((storedFeed who).isPrefixOf p.1)),
    cachedGraph := none }

/-- A decoded contact message (`refs.Contact`); `contact` is the target
feed (the Go field is named Contact). -/
structure Contact where
  contact : FeedRef
  following : Bool
  blocking : Bool
  deriving DecidableEq

/-- A message as seen by the contact index. `content` holds the result of
`refs.Contact.UnmarshalJSON` on the content bytes: `some c` when the content
decodes as a contact object, `none` otherwise. -/
structure Message where
  author : FeedRef
  content : Option Contact
  deriving DecidableEq

/-- The runtime-typed value handed to `indexUpdateFunc`: a nulled-message
error, some other error, a proper message, or a value of the wrong type. -/
inductive LogValue where
  | nulledErr
  | otherErr (e : String)
  | msg (m : Message)
  | notMsg

/-- Model of `builder.indexUpdateFunc`: ignore nulled entries, propagate other error
values, reject non-message values, silently skip messages whose content is
not a contact, and otherwise write one byte (1 for following, 2 for
blocking, 0 otherwise, in that switch order) under the concatenated stored
refs of author and target, invalidating the cached graph. -/
def indexUpdateFunc (st : BuilderState) (val : LogValue) : Except String BuilderState :=
  match val with
  | .nulledErr => .ok st
  | .otherErr e => .error e
  | .notMsg => .error "graph/idx: invalid msg value"
  | .msg m =>
    match m.content with
    | none => .ok st
    | some c =>
      let addr := storedFeed m.author ++ storedFeed c.contact
      let b : Nat := if c.following then 49 else if c.blocking then 50 else 48
      .ok { store := kvSet st.store addr [b], cachedGraph := none }

/-- Adding a feed ref to a `ssb.StrFeedSet`: a no-op when already present,
appended in insertion order otherwise. -/
def insertFeed (r : FeedRef) (l : List FeedRef) : List FeedRef :=
  if r ∈ l then l else l ++ [r]

/-- The prefix scan of `builder.Follows`: walk the store keys that begin
with the given prefix; for every value starting with byte 1, decode the
second half of the key (a decode failure is an error) and collect the
target into the accumulated feed set. -/
def followsScan (pfx : List Nat) : List (List Nat × List Nat) → List FeedRef →
    Except String (List FeedRef)
  | [], acc => .ok acc
  | (k, v) :: rest, acc =>
    if pfx.isPrefixOf k then
      match v with
      | b :: _ =>
        if b = 49 then
          match tfkUnmarshalFeed (k.drop 34) with
          | none => .error "follows: invalid ref entry in db for feed"
          | some r => followsScan pfx rest (insertFeed r acc)
        else followsScan pfx rest acc
      | [] => followsScan pfx rest acc
    else followsScan pfx rest acc

/-- Model of `builder.Follows`: the set of feeds `forRef` follows, per the store. -/
def Follows (s : Store) (forRef : FeedRef) : Except String (List FeedRef) :=
  followsScan (storedFeed forRef) s []

/-- The body of the follow loop inside `builder.recurseHops` (lines 342-360
of the source): for each feed followed by `f`, add it to the walked set,
list its follows (an error aborts), and when it follows `f` back recurse
through `recFn` (the recursion one depth lower). The walked and visited
sets are threaded through, modelling the shared mutable sets of the Go
code. -/
def hopsLoop (s : Store)
    (recFn : List FeedRef → List FeedRef → FeedRef →
      Except String (List FeedRef × List FeedRef)) :
    List FeedRef → List FeedRef → List FeedRef → FeedRef →
      Except String (List FeedRef × List FeedRef)
  | [], w, v, _ => .ok (w, v)
  | b :: rest, w, v, f =>
    let w2 := insertFeed b w
    match Follows s b with
    | .error e => .error e
    | .ok bf =>
      if f ∈ bf then
        match recFn w2 v b with
        | .error e => .error e
        | .ok (w3, v3) => hopsLoop s recFn rest w3 v3 f
      else hopsLoop s recFn rest w2 v f

/-- Model of `builder.recurseHops`: return at depth 0 or on an already visited node;
otherwise list the follows of `f` (an error aborts), run the follow loop,
and mark `f` visited afterwards. -/
def recurseHops (s : Store) : Nat → List FeedRef → List FeedRef → FeedRef →
    Except String (List FeedRef × List FeedRef)
  | 0, w, v, _ => .ok (w, v)
  | d + 1, w, v, f =>
    if f ∈ v then .ok (w, v)
    else
      match Follows s f with
      | .error e => .error e
      | .ok lst =>
        match hopsLoop s (recurseHops s d) lst w v f with
        | .error e => .error e
        | .ok (w2, v2) => .ok (w2, v2 ++ [f])

/-- Model of `builder.Hops`: recurse from `from` at depth `max + 1`; on any error the
Go code logs and returns a nil set, modelled as `none`; otherwise delete the
origin from the walked set and return it. -/
def Hops (s : Store) (f : FeedRef) (max : Nat) : Option (List FeedRef) :=
  match recurseHops s (max + 1) [] [] f with
  | .error _ => none
  | .ok (w, _) => some (w.filter (fun x => decide (x ≠ f)))

/-- The argument tuple of a createHistoryStream request
(`message.CreateHistArgs`). `id` is `none` for a missing id argument; the
feed ref carries the algorithm used for sink selection. -/
structure CreateHistArgs where
  id : Option FeedRef
  seq : Int
  limit : Int
  live : Bool
  keys : Bool
  rev : Bool
  asJSON : Bool
  lt : Int
  gt : Int

/-- Model of `nonliveLimit`: the upper limit for the historical phase given the
current latest sequence; -1 means unbounded. -/
def nonliveLimit (a : CreateHistArgs) (curSeq : Int) : Int :=
  if a.limit = -1 then -1
  else
    let lastSeq := a.seq + a.limit - 1
    let lastSeq2 := if lastSeq > curSeq then curSeq else lastSeq
    lastSeq2 - a.seq + 1

/-- Model of `liveLimit`: the limit for the live portion given the current latest
sequence; -1 means unbounded. -/
def liveLimit (a : CreateHistArgs) (curSeq : Int) : Int :=
  if a.limit = -1 then -1
  else
    let startSeq := curSeq + 1
    let lastSeq := a.seq + a.limit - 1
    if lastSeq < curSeq then 0
    else lastSeq - startSeq + 1

/-- Outcome of `CreateStreamHistory`: an error return, the sink closed after
emitting the listed sub-log offsets, or a live registration (after emitting
the listed offsets) with the watermark and limit passed to `addLiveFeed`. -/
inductive HistOutcome where
  | failed (e : String)
  | closed (frames : List Int)
  | liveReg (frames : List Int) (watermark : Int) (lim : Int)
  deriving DecidableEq

/-- The margaret query over the user sub-log built in `CreateStreamHistory`
(lines 246-263 of the source): the sub-log holds offsets 0 .. n-1; apply
Gte when the (0-based) start is positive, Lt and Gt when positive, reverse,
and the limit (negative = unbounded). -/
def queryFrames (n : Nat) (seq0 ltA gtA : Int) (rev : Bool) (lim : Int) :
    List Int :=
  let all := (List.range n).map Int.ofNat
  let f1 := if seq0 > 0 then all.filter (fun i => decide (seq0 ≤ i)) else all
  let f2 := if ltA > 0 then f1.filter (fun i => decide (i < ltA)) else f1
  let f3 := if gtA > 0 then f2.filter (fun i => decide (gtA < i)) else f2
  let f4 := if rev then f3.reverse else f3
  if lim < 0 then f4 else f4.take lim.toNat

/-- The historical phase of `CreateStreamHistory` (from line 242 on): the
live zero-limit rewrite, the non-live limit, sink selection by feed
algorithm (0 = classic ssb1, 1 = gabby; anything else is unsupported), the
pump of the query, then either a live registration or closing the sink. -/
def histPhase (n : Nat) (fid : FeedRef) (latest : Int) (a0 : CreateHistArgs) :
    HistOutcome :=
  let a := if a0.live = true ∧ a0.limit = 0 then { a0 with limit := -1 } else a0
  let lim := nonliveLimit a latest
  if fid.algo = 0 ∨ fid.algo = 1 then
    let frames := queryFrames n a.seq a.lt a.gt a.rev lim
    if a.live then .liveReg frames latest (liveLimit a latest)
    else .closed frames
  else .failed "unsupported feed format"

/-- The latest sequence of a user sub-log holding `n` messages (offsets
0 .. n-1, latest = n-1), or 0 when the feed is unknown, mirroring
`getLatestSeq` on an unset value. -/
def latestOf (n : Nat) : Int := if n = 0 then 0 else (n : Int) - 1

/-- Model of `FeedManager.CreateStreamHistory` for a user feed holding `n` messages:
validate the id, normalize the 1-based start by decrementing when non-zero,
and when the normalized start is past the latest either register live (with
the limit computed from the still unrewritten argument) or close the sink
with no frames; otherwise run the historical phase. -/
def CreateStreamHistory (n : Nat) (a0 : CreateHistArgs) : HistOutcome :=
  match a0.id with
  | none => .failed "bad request: missing id argument"
  | some fid =>
    if a0.seq ≠ 0 then
      if a0.seq - 1 > latestOf n then
        if a0.live then
          .liveReg [] (latestOf n) (liveLimit { a0 with seq := a0.seq - 1 } (latestOf n))
        else .closed []
      else histPhase n fid (latestOf n) { a0 with seq := a0.seq - 1 }
    else histPhase n fid (latestOf n) a0

/-- The shape of a message content as seen by `legacy.Verify` after the JSON
switch on its first byte: empty content, an object (with the decoded `type`
field, or `none` on an unmarshal failure; a missing field decodes to the
empty string), a plain JSON string (or an unmarshal failure), or any other
first byte. Go `len` on a string counts bytes; the type fields of interest
are ASCII, so `List Char` length coincides. -/
inductive ContentShape where
  | empty
  | obj (typeField : Option (List Char))
  | str (s : Option (List Char))
  | other (b : Nat)

/-- The structural validation of `legacy.Verify` (lines 53-88 of the
source): require hash sha256 and non-empty content; an object content needs
a type field of length in 3 .. 53 (the code rejects only lengths below 3 or
above 53); a string content needs a `.box` or `.box2` suffix. -/
def verifyShape (hash : String) (c : ContentShape) : Except String Unit :=
  if hash ≠ "sha256" then .error "ssb Verify: scuttlebutt happend anyway"
  else
    match c with
    | .empty => .error "ssb Verify: has no content"
    | .obj none => .error "json unmarshal object failed"
    | .obj (some t) =>
      if t.length < 3 ∨ t.length > 53 then
        .error "ssb Verify: scuttlebutt v1 requires a type field"
      else .ok ()
    | .str none => .error "json unmarshal string failed"
    | .str (some s) =>
      if ('.' :: 'b' :: 'o' :: 'x' :: []).isSuffixOf s ∨
          ('.' :: 'b' :: 'o' :: 'x' :: '2' :: []).isSuffixOf s then .ok ()
      else .error "ssb Verify: scuttlebutt v1 private messages need to have the right suffix"
    | .other _ => .error "ssb Verify: unexpected content"

/-- Concrete well-formed feed refs used in the closed instances below. -/
def refA : FeedRef := ⟨0, List.replicate 32 1⟩

def refB : FeedRef := ⟨0, List.replicate 32 2⟩

def refC : FeedRef := ⟨0, List.replicate 32 3⟩

/-- A store in which A follows C (and C follows nobody). -/
def storeAC : Store := [(storedFeed refA ++ storedFeed refC, [49])]

/-- A store in which B follows A. -/
def storeBA : Store := [(storedFeed refB ++ storedFeed refA, [49])]

/-- A store holding a 68-byte key with the garbage value byte 51. -/
def storeGarbage : Store := [(storedFeed refA ++ storedFeed refB, [51])]

/-- A store in which the prefix scan for A meets a follow value whose key
suffix is not a decodable stored ref, making `Follows` fail. -/
def storeBadSuffix : Store := [(storedFeed refA ++ [9], [49])]

/-- Modelled from the spec's words, for comparison against `Hops` (claim
C1): the set of feeds `f` follows that also follow `f` back, minus `f`
itself. -/
def specHopsZero (s : Store) (f : FeedRef) : Option (List FeedRef) :=
  match Follows s f with
  | .error _ => none
  | .ok l =>
    some ((l.filter (fun b =>
      match Follows s b with
      | .ok m => decide (f ∈ m)
      | .error _ => false)).filter (fun x => decide (x ≠ f)))

/-- The frames emitted by a request outcome, when it did not fail. -/
def framesOf : HistOutcome → Option (List Int)
  | .failed _ => none
  | .closed fs => some fs
  | .liveReg fs _ _ => some fs

/-- The limit handed to `addLiveFeed` by a request outcome, when the
request registered a live subscription. -/
def liveLimOf : HistOutcome → Option Int
  | .liveReg _ _ lim => some lim
  | _ => none

/-- A request argument tuple with every field at its zero value and the id
set, for the closed instances below. -/
def baseArgs : CreateHistArgs :=
  { id := some refA, seq := 0, limit := 0, live := false, keys := false,
    rev := false, asJSON := false, lt := 0, gt := 0 }

/-- A 53-character type field. -/
def type53 : List Char := List.replicate 53 'a'

/-! Helper lemmas. -/

/-- A successful TFK decode pins the raw bytes: they are exactly the stored
form of the decoded ref. -/
lemma tfkUnmarshalFeed_eq_storedFeed {b : List Nat} {r : FeedRef}
    (h : tfkUnmarshalFeed b = some r) : b = storedFeed r := by
  match b with
  | [] => simp [tfkUnmarshalFeed] at h
  | [t] => simp [tfkUnmarshalFeed] at h
  | t :: f :: rest =>
    simp only [tfkUnmarshalFeed] at h
    split at h
    · rename_i hc
      cases h
      simp [storedFeed, hc.1]
    · cases h

lemma mem_insertFeed {x r : FeedRef} {l : List FeedRef} :
    x ∈ insertFeed r l ↔ x = r ∨ x ∈ l := by
  unfold insertFeed
  split
  · rename_i hm
    constructor
    · exact fun h => Or.inr h
    · rintro (rfl | h)
      · exact hm
      · exact h
  · simp [or_comm]

/-- Claim C9: when the key-value scan inside Build fails, Build still
installs the partially built graph as the cache, and a second Build under
the unchanged cache returns that partial graph with no error. -/
theorem build_caches_partial_on_error (s : Store) (e : String)
    (_h : (Build ⟨s, none⟩).1.2 = some e) :
    (Build ⟨s, none⟩).2.cachedGraph = some (Build ⟨s, none⟩).1.1 ∧
    Build ((Build ⟨s, none⟩).2) =
      (((Build ⟨s, none⟩).1.1, none), (Build ⟨s, none⟩).2) := by
  constructor
  · simp [Build]
  · simp [Build]

theorem build_caches_partial_on_error_witness :
    (Build ⟨storeGarbage, none⟩).1.2 = some "barbage value in graph strore" ∧
    ((Build ⟨storeGarbage, none⟩).2.cachedGraph = some (Build ⟨storeGarbage, none⟩).1.1 ∧
     Build ((Build ⟨storeGarbage, none⟩).2) =
       (((Build ⟨storeGarbage, none⟩).1.1, none), (Build ⟨storeGarbage, none⟩).2)) :=
  ⟨by decide,
   build_caches_partial_on_error storeGarbage "barbage value in graph strore" (by decide)⟩

/-- Claim C10: when the follow listing fails during the recursion, Hops
returns the nil set (modelled `none`), not an empty set and not an error
value. -/
theorem hops_nil_on_error (s : Store) (f : FeedRef) (n : Nat) (e : String)
    (h : recurseHops s (n + 1) [] [] f = .error e) :
    Hops s f n = none := by
  simp [Hops, h]

theorem hops_nil_on_error_witness : Hops storeBadSuffix refA 0 = none :=
  hops_nil_on_error storeBadSuffix refA 0
    "follows: invalid ref entry in db for feed" (by rfl)

/-- Claim C3: a non-live request whose 1-based start lies past the feed's
latest (its 0-based form exceeds the latest stored offset) closes the sink
and emits no frame. -/
theorem past_end_nonlive_closed (n : Nat) (a : CreateHistArgs) (fid : FeedRef)
    (hid : a.id = some fid) (hlive : a.live = false) (hseq : 1 ≤ a.seq)
    (hpast : latestOf n < a.seq - 1) :
    CreateStreamHistory n a = .closed [] := by
  have hne : a.seq ≠ 0 := by omega
  simp [CreateStreamHistory, hid, hne, hpast, hlive]

theorem past_end_nonlive_closed_witness :
    CreateStreamHistory 1 { baseArgs with seq := 5 } = .closed [] :=
  past_end_nonlive_closed 1 _ refA rfl rfl (by decide) (by decide)

/-- Claim C6 (amended): with hash sha256 and an object content, the type
shape check passes exactly when the type length is within 3 .. 53 (the
source rejects only lengths below 3 or above 53, not above 52). -/
theorem type_shape_3_53 (t : List Char) :
    (3 ≤ t.length → t.length ≤ 53 →
      verifyShape "sha256" (.obj (some t)) = .ok ()) ∧
    (t.length < 3 ∨ 53 < t.length →
      verifyShape "sha256" (.obj (some t)) =
        .error "ssb Verify: scuttlebutt v1 requires a type field") := by
  constructor
  · intro h1 h2
    simp only [verifyShape]
    rw [if_neg (by simp)]
    rw [if_neg (by omega)]
  · intro h
    simp only [verifyShape]
    rw [if_neg (by simp)]
    rw [if_pos (by omega)]

theorem type_shape_3_53_witness :
    verifyShape "sha256" (.obj (some ('a' :: 'b' :: 'c' :: []))) = .ok () ∧
    verifyShape "sha256" (.obj (some ('a' :: []))) =
      .error "ssb Verify: scuttlebutt v1 requires a type field" :=
  ⟨(type_shape_3_53 _).1 (by decide) (by decide),
   (type_shape_3_53 _).2 (by decide)⟩

/-- Claim C6 counterexample: a 53-character type field passes the shape
check, though 53 is outside 3 .. 52. -/
theorem type_len_53_cex :
    verifyShape "sha256" (.obj (some type53)) = .ok () ∧
    type53.length = 53 ∧ ¬(type53.length ≤ 52) := by
  refine ⟨?_, by decide, by decide⟩
  rfl

/-- Claim C8 (amended): a live request with limit 0 is treated as unbounded
live (subscription limit -1) when the normalized start is not past the
latest; when it is past the latest, the subscription limit is computed from
the still unrewritten limit 0 and equals seq - latest - 2. -/
theorem live_zero_limit_spec :
    (∀ (n : Nat) (a : CreateHistArgs) (fid : FeedRef),
      a.id = some fid → (fid.algo = 0 ∨ fid.algo = 1) → a.live = true →
      a.limit = 0 → (a.seq = 0 ∨ a.seq - 1 ≤ latestOf n) →
      liveLimOf (CreateStreamHistory n a) = some (-1)) ∧
    (∀ (n : Nat) (a : CreateHistArgs) (fid : FeedRef),
      a.id = some fid → a.live = true → a.limit = 0 → a.seq ≠ 0 →
      latestOf n < a.seq - 1 →
      CreateStreamHistory n a = .liveReg [] (latestOf n) (a.seq - latestOf n - 2)) := by
  constructor
  · intro n a fid hid halgo hlive hlim hnp
    by_cases hz : a.seq = 0
    · simp [CreateStreamHistory, hid, hz, histPhase, hlive, hlim, halgo, liveLimit, liveLimOf]
    · have hle : ¬ (latestOf n < a.seq - 1) := by
        rcases hnp with h | h
        · exact absurd h hz
        · omega
      simp [CreateStreamHistory, hid, hz, hle, histPhase, hlive, hlim, halgo,
        liveLimit, liveLimOf]
  · intro n a fid hid hlive hlim hz hpast
    simp only [CreateStreamHistory, hid]
    rw [if_pos hz, if_pos hpast, if_pos hlive]
    simp [liveLimit, hlim]
    omega

theorem live_zero_limit_spec_witness :
    liveLimOf (CreateStreamHistory 1 { baseArgs with seq := 1, limit := 0, live := true })
      = some (-1) ∧
    CreateStreamHistory 1 { baseArgs with seq := 3, limit := 0, live := true }
      = .liveReg [] (latestOf 1) (3 - latestOf 1 - 2) :=
  ⟨live_zero_limit_spec.1 1 _ refA rfl (Or.inl rfl) rfl rfl (by right; decide),
   live_zero_limit_spec.2 1 _ refA rfl rfl rfl (by decide) (by decide)⟩

/-- Claim C8 counterexample: with the start past the latest, a live request
with limit 0 registers with subscription limit 1, not -1. -/
theorem live_zero_limit_cex :
    CreateStreamHistory 1 { baseArgs with seq := 3, limit := 0, live := true }
      = .liveReg [] 0 1 ∧
    liveLimOf (CreateStreamHistory 1 { baseArgs with seq := 3, limit := 0, live := true })
      ≠ some (-1) := by
  refine ⟨by decide, by decide⟩

/-- Claim C1 counterexample: in a store where A follows C and C does not
follow A back, Hops(A, 0) is {C}, while the spec's mutual-follow reading
(`specHopsZero`) predicts the empty set. -/
theorem hops_zero_mutual_cex :
    Hops storeAC refA 0 = some [refC] ∧
    specHopsZero storeAC refA = some [] ∧
    Hops storeAC refA 0 ≠ specHopsZero storeAC refA := by
  refine ⟨by decide, by decide, by decide⟩

/-- Claim C2 counterexample: with a store holding only the edge B follows A,
deleting author A leaves that key (only keys prefixed by A's stored ref are
removed), and the rebuilt graph still has the edge into A. -/
theorem delete_author_incoming_cex :
    (Build (DeleteAuthor ⟨storeBA, none⟩ refA)).1.1 = [⟨refB, refA, false⟩] ∧
    (⟨refB, refA, false⟩ : ContactEdge).dst = refA := by
  refine ⟨by decide, rfl⟩

/-- Every edge produced by the build scan comes either from the accumulator
or from a store entry with a 68-byte key whose distinct halves decode to the
edge's endpoints. -/
lemma buildScan_mem (l : List (List Nat × List Nat)) (acc : List ContactEdge)
    (e : ContactEdge) (he : e ∈ (buildScan l acc).1) :
    e ∈ acc ∨ ∃ k v, (k, v) ∈ l ∧ k.length = 68 ∧ k.take 34 ≠ k.drop 34 ∧
      tfkUnmarshalFeed (k.take 34) = some e.src ∧
      tfkUnmarshalFeed (k.drop 34) = some e.dst := by
  induction l generalizing acc with
  | nil =>
    simp only [buildScan] at he
    exact Or.inl he
  | cons p rest ih =>
    obtain ⟨k, v⟩ := p
    simp only [buildScan] at he
    split at he
    · rcases ih acc he with h | ⟨k2, v2, hm, hr⟩
      · exact Or.inl h
      · exact Or.inr ⟨k2, v2, List.mem_cons_of_mem _ hm, hr⟩
    · split at he
      · rcases ih acc he with h | ⟨k2, v2, hm, hr⟩
        · exact Or.inl h
        · exact Or.inr ⟨k2, v2, List.mem_cons_of_mem _ hm, hr⟩
      · split at he
        · exact Or.inl he
        · split at he
          · exact Or.inl he
          · split at he
            · exact Or.inl he
            · rcases ih acc he with h | ⟨k2, v2, hm, hr⟩
              · exact Or.inl h
              · exact Or.inr ⟨k2, v2, List.mem_cons_of_mem _ hm, hr⟩
            · rcases ih _ he with h | ⟨k2, v2, hm, hr⟩
              · rcases List.mem_append.mp h with h | h
                · exact Or.inl h
                · rw [List.mem_singleton] at h
                  subst h
                  refine Or.inr ⟨k, v, List.mem_cons_self _ _, by omega, ?_, ?_, ?_⟩
                  · assumption
                  · assumption
                  · assumption
              · exact Or.inr ⟨k2, v2, List.mem_cons_of_mem _ hm, hr⟩
            · rcases ih _ he with h | ⟨k2, v2, hm, hr⟩
              · rcases List.mem_append.mp h with h | h
                · exact Or.inl h
                · rw [List.mem_singleton] at h
                  subst h
                  refine Or.inr ⟨k, v, List.mem_cons_self _ _, by omega, ?_, ?_, ?_⟩
                  · assumption
                  · assumption
                  · assumption
              · exact Or.inr ⟨k2, v2, List.mem_cons_of_mem _ hm, hr⟩

/-- Claim C7: the graph returned by Build has no self-loop, for any store
contents, including keys whose from-half equals their to-half. -/
theorem build_no_self_loops : ∀ s : Store,
    ((Build ⟨s, none⟩).1.1.all (fun e => !(e.src == e.dst))) = true := by
  intro s
  rw [List.all_eq_true]
  intro e he
  have hm : e ∈ (buildScan s []).1 := by
    simpa [Build] using he
  rcases buildScan_mem s [] e hm with h | ⟨k, v, _, _, hne, hfrom, hto⟩
  · cases h
  · have h1 := tfkUnmarshalFeed_eq_storedFeed hfrom
    have h2 := tfkUnmarshalFeed_eq_storedFeed hto
    simp only [Bool.not_eq_true', beq_eq_false_iff_ne, ne_eq]
    intro hsd
    exact hne (by rw [h1, h2, hsd])

/-- Claim C2 (amended): after DeleteAuthor(A), the rebuilt graph has no
edge out of A; edges into A may remain. -/
theorem delete_author_no_outgoing : ∀ (st : BuilderState) (who : FeedRef),
    ((Build (DeleteAuthor st who)).1.1.all (fun e => !(e.src == who))) = true := by
  intro st who
  rw [List.all_eq_true]
  intro e he
  have hm : e ∈ (buildScan (DeleteAuthor st who).store []).1 := by
    simpa [Build, DeleteAuthor] using he
  rcases buildScan_mem _ [] e hm with h | ⟨k, v, hkv, hlen, _, hfrom, _⟩
  · cases h
  · have h1 := tfkUnmarshalFeed_eq_storedFeed hfrom
    simp only [DeleteAuthor] at hkv
    have hnp := (List.mem_filter.mp hkv).2
    simp only [Bool.not_eq_true', beq_eq_false_iff_ne, ne_eq]
    intro hsw
    rw [hsw] at h1
    have hpre : (storedFeed who).isPrefixOf k = true := by
      rw [List.isPrefixOf_iff_prefix, ← h1]
      exact List.take_prefix 34 k
    simp [hpre] at hnp

lemma recurseHops_zero (s : Store) (w v : List FeedRef) (f : FeedRef) :
    recurseHops s 0 w v f = .ok (w, v) := rfl

/-- The unfolding of `recurseHops` at a positive depth. -/
lemma recurseHops_succ (s : Store) (d : Nat) (w v : List FeedRef) (f : FeedRef) :
    recurseHops s (d + 1) w v f =
      if f ∈ v then .ok (w, v)
      else
        match Follows s f with
        | .error e => .error e
        | .ok lst =>
          match hopsLoop s (recurseHops s d) lst w v f with
          | .error e => .error e
          | .ok (w2, v2) => .ok (w2, v2 ++ [f]) := rfl

/-- At the last depth the follow loop only accumulates the followees (the
recursion returns immediately), provided every followee's listing
succeeds. -/
lemma hopsLoop_zero (s : Store) (l : List FeedRef) (w v : List FeedRef) (f : FeedRef)
    (hall : ∀ b ∈ l, ∃ m, Follows s b = Except.ok m) :
    hopsLoop s (recurseHops s 0) l w v f =
      .ok (l.foldl (fun acc b => insertFeed b acc) w, v) := by
  induction l generalizing w with
  | nil => rfl
  | cons b rest ih =>
    obtain ⟨m, hm⟩ := hall b (List.mem_cons_self _ _)
    have hrest : ∀ x ∈ rest, ∃ m2, Follows s x = Except.ok m2 :=
      fun x hx => hall x (List.mem_cons_of_mem _ hx)
    simp only [hopsLoop, hm]
    by_cases hin : f ∈ m
    · rw [if_pos hin, recurseHops_zero]
      simp only [List.foldl_cons]
      exact ih _ hrest
    · rw [if_neg hin]
      simp only [List.foldl_cons]
      exact ih _ hrest

lemma mem_foldl_insertFeed (l : List FeedRef) (w : List FeedRef) (x : FeedRef) :
    x ∈ l.foldl (fun acc b => insertFeed b acc) w ↔ x ∈ w ∨ x ∈ l := by
  induction l generalizing w with
  | nil => simp
  | cons b rest ih =>
    rw [List.foldl_cons, ih, mem_insertFeed]
    constructor
    · rintro ((rfl | h) | h)
      · exact Or.inr (List.mem_cons_self _ _)
      · exact Or.inl h
      · exact Or.inr (List.mem_cons_of_mem _ h)
    · rintro (h | h)
      · exact Or.inl (Or.inr h)
      · rcases List.mem_cons.mp h with rfl | h
        · exact Or.inl (Or.inl rfl)
        · exact Or.inr h

/-- Claim C1 (amended): Hops(F, 0) is the set of feeds F follows, minus F
itself (mutuality is not required at the last depth), whenever the follow
listings involved succeed. -/
theorem hops_zero_eq_follows (s : Store) (f : FeedRef) (l : List FeedRef)
    (hf : Follows s f = Except.ok l)
    (hall : ∀ b ∈ l, ∃ m, Follows s b = Except.ok m) :
    (Hops s f 0).map List.toFinset = some (l.toFinset.erase f) := by
  have h1 : recurseHops s (0 + 1) [] [] f =
      Except.ok (l.foldl (fun acc b => insertFeed b acc) [], [] ++ [f]) := by
    calc recurseHops s (0 + 1) [] [] f
        = (match hopsLoop s (recurseHops s 0) l [] [] f with
          | .error e => .error e
          | .ok (w2, v2) => Except.ok (w2, v2 ++ [f])) := by
          rw [recurseHops_succ, if_neg (List.not_mem_nil f), hf]
      _ = Except.ok (l.foldl (fun acc b => insertFeed b acc) [], [] ++ [f]) := by
          rw [hopsLoop_zero s l [] [] f hall]
  simp only [Hops, h1]
  simp only [Option.map_some']
  rw [Option.some.injEq]
  ext x
  simp only [List.mem_toFinset, List.mem_filter, Finset.mem_erase,
    decide_eq_true_eq, mem_foldl_insertFeed, List.not_mem_nil, false_or]
  tauto

theorem hops_zero_eq_follows_witness :
    (Hops storeAC refA 0).map List.toFinset = some ([refC].toFinset.erase refA) :=
  hops_zero_eq_follows storeAC refA [refC] (by rfl)
    (by
      intro b hb
      rw [List.mem_singleton] at hb
      subst hb
      exact ⟨[], by rfl⟩)

/-- Claim C5: a message whose content decodes as a contact makes the index
write exactly the one byte 1 / 2 / 0 (following first, then blocking, else
none) under the key made of both stored refs, 68 bytes for well-formed
refs; a message whose content does not decode as a contact succeeds and
leaves the state unchanged. -/
theorem contact_index_write (st : BuilderState) (m mSkip : Message) (c : Contact)
    (hc : m.content = some c) (hskip : mSkip.content = none) :
    (c.following = true →
      indexUpdateFunc st (.msg m) = .ok
        ⟨kvSet st.store (storedFeed m.author ++ storedFeed c.contact) [49], none⟩) ∧
    (c.following = false → c.blocking = true →
      indexUpdateFunc st (.msg m) = .ok
        ⟨kvSet st.store (storedFeed m.author ++ storedFeed c.contact) [50], none⟩) ∧
    (c.following = false → c.blocking = false →
      indexUpdateFunc st (.msg m) = .ok
        ⟨kvSet st.store (storedFeed m.author ++ storedFeed c.contact) [48], none⟩) ∧
    (wfRef m.author → wfRef c.contact →
      (storedFeed m.author ++ storedFeed c.contact).length = 68) ∧
    indexUpdateFunc st (.msg mSkip) = .ok st := by
  refine ⟨?_, ?_, ?_, ?_, ?_⟩
  · intro hf
    simp [indexUpdateFunc, hc, hf]
  · intro hf hb
    simp [indexUpdateFunc, hc, hf, hb]
  · intro hf hb
    simp [indexUpdateFunc, hc, hf, hb]
  · intro h1 h2
    obtain ⟨_, hl1⟩ := h1
    obtain ⟨_, hl2⟩ := h2
    simp [storedFeed, hl1, hl2]
  · simp [indexUpdateFunc, hskip]

theorem contact_index_write_witness :
    ((⟨refB, true, false⟩ : Contact).following = true →
      indexUpdateFunc ⟨[], none⟩ (.msg ⟨refA, some ⟨refB, true, false⟩⟩) = .ok
        ⟨kvSet [] (storedFeed refA ++ storedFeed refB) [49], none⟩) ∧
    ((⟨refB, true, false⟩ : Contact).following = false →
      (⟨refB, true, false⟩ : Contact).blocking = true →
      indexUpdateFunc ⟨[], none⟩ (.msg ⟨refA, some ⟨refB, true, false⟩⟩) = .ok
        ⟨kvSet [] (storedFeed refA ++ storedFeed refB) [50], none⟩) ∧
    ((⟨refB, true, false⟩ : Contact).following = false →
      (⟨refB, true, false⟩ : Contact).blocking = false →
      indexUpdateFunc ⟨[], none⟩ (.msg ⟨refA, some ⟨refB, true, false⟩⟩) = .ok
        ⟨kvSet [] (storedFeed refA ++ storedFeed refB) [48], none⟩) ∧
    (wfRef refA → wfRef refB → (storedFeed refA ++ storedFeed refB).length = 68) ∧
    indexUpdateFunc ⟨[], none⟩ (.msg ⟨refA, none⟩) = .ok ⟨[], none⟩ :=
  contact_index_write ⟨[], none⟩ ⟨refA, some ⟨refB, true, false⟩⟩ ⟨refA, none⟩
    ⟨refB, true, false⟩ rfl rfl

/-- Counting the sub-log offsets at or above a non-negative start. -/
lemma length_filter_ge (n : Nat) (s : Int) (hs : 0 ≤ s) :
    (((List.range n).map Int.ofNat).filter
      (fun i => decide (s ≤ i))).length = n - s.toNat := by
  induction n with
  | zero => simp
  | succ m ih =>
    rw [List.range_succ, List.map_append, List.filter_append, List.length_append, ih]
    simp only [List.map_cons, List.map_nil, List.filter_cons, List.filter_nil]
    by_cases h : s ≤ (m : Int)
    · simp [h]
      omega
    · simp [h]
      omega

/-- The historical query with limit -1 and no lt/gt bound yields one frame
per offset from the start to the latest. -/
lemma queryFrames_unbounded_len (n : Nat) (s : Int) (rev : Bool)
    (hs0 : 0 ≤ s) (hsn : s ≤ (n : Int) - 1) :
    ((queryFrames n s 0 0 rev (-1)).length : Int) = ((n : Int) - 1) - s + 1 := by
  have hq : queryFrames n s 0 0 rev (-1) =
      (fun f3 => if rev then f3.reverse else f3)
        (if s > 0 then
          ((List.range n).map Int.ofNat).filter (fun i => decide (s ≤ i))
        else (List.range n).map Int.ofNat) := by
    simp only [queryFrames]
    rw [if_neg (by omega : ¬ ((0 : Int) > 0)), if_neg (by omega : ¬ ((0 : Int) > 0)),
      if_pos (by omega : (-1 : Int) < 0)]
  rw [hq]
  have hlen : ((if s > 0 then
      ((List.range n).map Int.ofNat).filter (fun i => decide (s ≤ i))
      else (List.range n).map Int.ofNat).length : Int) = ((n : Int) - 1) - s + 1 := by
    by_cases hpos : s > 0
    · rw [if_pos hpos, length_filter_ge n s hs0]
      omega
    · rw [if_neg hpos]
      simp only [List.length_map, List.length_range]
      omega
  cases rev
  · simpa using hlen
  · simp only [if_true]
    rw [List.length_reverse]
    simpa using hlen

/-- Claim C4: the historical-phase limit is min(limit, cur - seq + 1) for
non-negative limits and -1 (unbounded) for limit -1; with limit -1 and no
lt/gt bound the historical phase emits exactly cur - seq + 1 frames (seq
the normalized 0-based start, the request carrying seq + 1). -/
theorem nonlive_limit_spec :
    (∀ (a : CreateHistArgs) (cur : Int), 0 ≤ a.limit →
      nonliveLimit a cur = min a.limit (cur - a.seq + 1)) ∧
    (∀ (a : CreateHistArgs) (cur : Int), a.limit = -1 →
      nonliveLimit a cur = -1) ∧
    (∀ (n : Nat) (a : CreateHistArgs) (fid : FeedRef) (s : Int),
      a.id = some fid → fid.algo = 0 → a.live = false → a.limit = -1 →
      a.lt = 0 → a.gt = 0 → a.seq = s + 1 → 0 ≤ s → s ≤ latestOf n → 1 ≤ n →
      (framesOf (CreateStreamHistory n a)).map (fun l => (l.length : Int))
        = some (latestOf n - s + 1)) := by
  refine ⟨?_, ?_, ?_⟩
  · intro a cur h
    simp only [nonliveLimit]
    rw [if_neg (by omega : ¬ a.limit = -1)]
    by_cases hc : a.seq + a.limit - 1 > cur
    · rw [if_pos hc]
      omega
    · rw [if_neg hc]
      omega
  · intro a cur h
    simp [nonliveLimit, h]
  · intro n a fid s hid halgo hlive hlim hlt hgt hseq hs0 hsle hn
    have hlat : latestOf n = (n : Int) - 1 := by
      simp only [latestOf]
      rw [if_neg (by omega : ¬ n = 0)]
    have hne : a.seq ≠ 0 := by omega
    have hnp : ¬ (a.seq - 1 > latestOf n) := by omega
    have hs' : a.seq - 1 = s := by omega
    simp only [CreateStreamHistory, hid]
    rw [if_pos hne, if_neg hnp]
    simp only [histPhase, hlive, hlim, hlt, hgt, hs', halgo, Bool.false_eq_true,
      false_and, if_false, if_true, or_true, true_or, eq_self_iff_true, framesOf,
      nonliveLimit, if_pos rfl]
    simp only [Option.map_some']
    rw [Option.some.injEq]
    rw [queryFrames_unbounded_len n s a.rev hs0 (by omega)]
    omega

theorem nonlive_limit_spec_witness :
    nonliveLimit { baseArgs with seq := 1, limit := 2 } 5 = min 2 (5 - 1 + 1) ∧
    nonliveLimit { baseArgs with seq := 1, limit := -1 } 5 = -1 ∧
    (framesOf (CreateStreamHistory 3 { baseArgs with seq := 2, limit := -1 })).map
      (fun l => (l.length : Int)) = some (latestOf 3 - 1 + 1) :=
  ⟨nonlive_limit_spec.1 _ 5 (by decide),
   nonlive_limit_spec.2.1 _ 5 rfl,
   nonlive_limit_spec.2.2 3 _ refA 1 rfl rfl rfl rfl rfl rfl (by decide) (by decide)
     (by decide) (by decide)⟩
